import Mathlib

/-!
Verification of the catalog-assembly and extent-merge pipeline of
`stac_gen/create_stac_catalog.py` (repository `syncarto/stac-gen`).

The Python source is shallowly embedded below.  Python floats (which include
`float('inf')` and `float('-inf')`, used as the empty spatial extent) are
modelled as rationals extended with a bottom and a top element; Python
`datetime` instants are modelled as integers, and the stdlib
`strptime`/`strftime` pair on the normalized format `%Y-%m-%dT%H:%M:%SZ` is
modelled abstractly: a normalized datetime string is represented by the
instant it denotes.  External collaborators (boto3, rasterio, subprocess,
the regex engine, the sat-stac library) are modelled as explicit inputs or,
where the spec requires, as definitions marked `Modelled from the spec`.
-/

namespace StacGen

/-- Python float values used for extent coordinates: rationals together with
`float('-inf')` (bottom) and `float('inf')` (top). -/
abbrev Coord := WithBot (WithTop ℚ)

/-- Embed a finite coordinate into `Coord`. -/
def q2c (q : ℚ) : Coord := ((q : WithTop ℚ) : Coord)

/-- Geographic bounds of one raster, `[left, bottom, right, top]`, as produced
by `rasterio.warp.transform_bounds` (always finite). -/
structure Bounds where
  left : ℚ
  bottom : ℚ
  right : ℚ
  top : ℚ
deriving DecidableEq

/-- The running spatial extent accumulator
(`{'left': .., 'bottom': .., 'right': .., 'top': ..}`). -/
@[ext]
structure SpatialExtent where
  left : Coord
  bottom : Coord
  right : Coord
  top : Coord
deriving DecidableEq

/-- The empty initial spatial extent built in `get_initial_spatial_extent`:
`left = bottom = float('inf')`, `right = top = float('-inf')`. -/
def emptySpatialExtent : SpatialExtent := ⟨⊤, ⊤, ⊥, ⊥⟩

/-- `if left < extent['left']: extent['left'] = left` (line 148). -/
def upd_left (E : SpatialExtent) (l : Coord) : SpatialExtent :=
  if l < E.left then { E with left := l } else E

/-- `if right > extent['right']: extent['right'] = right` (line 150). -/
def upd_right (E : SpatialExtent) (r : Coord) : SpatialExtent :=
  if r > E.right then { E with right := r } else E

/-- `if bottom < extent['bottom']: extent['bottom'] = bottom` (line 152). -/
def upd_bottom (E : SpatialExtent) (b : Coord) : SpatialExtent :=
  if b < E.bottom then { E with bottom := b } else E

/-- `if top > extent['top']: extent['top'] = top` (line 154). -/
def upd_top (E : SpatialExtent) (t : Coord) : SpatialExtent :=
  if t > E.top then { E with top := t } else E

/-- Embeds `update_spatial_extent` (lines 146-155): the four
compare-and-assign statements, in source order (left, right, bottom, top). -/
def update_spatial_extent (extent : SpatialExtent) (new_bounds : Bounds) : SpatialExtent :=
  upd_top
    (upd_bottom
      (upd_right
        (upd_left extent (q2c new_bounds.left))
        (q2c new_bounds.right))
      (q2c new_bounds.bottom))
    (q2c new_bounds.top)

theorem upd_left_left (E : SpatialExtent) (l : Coord) : (upd_left E l).left = min E.left l := by
  unfold upd_left
  split_ifs with h
  · exact (min_eq_right h.le).symm
  · exact (min_eq_left (not_lt.mp h)).symm

theorem upd_left_bottom (E : SpatialExtent) (l : Coord) : (upd_left E l).bottom = E.bottom := by
  unfold upd_left; split_ifs <;> rfl

theorem upd_left_right (E : SpatialExtent) (l : Coord) : (upd_left E l).right = E.right := by
  unfold upd_left; split_ifs <;> rfl

theorem upd_left_top (E : SpatialExtent) (l : Coord) : (upd_left E l).top = E.top := by
  unfold upd_left; split_ifs <;> rfl

theorem upd_right_right (E : SpatialExtent) (r : Coord) : (upd_right E r).right = max E.right r := by
  unfold upd_right
  split_ifs with h
  · exact (max_eq_right h.le).symm
  · exact (max_eq_left (not_lt.mp h)).symm

theorem upd_right_left (E : SpatialExtent) (r : Coord) : (upd_right E r).left = E.left := by
  unfold upd_right; split_ifs <;> rfl

theorem upd_right_bottom (E : SpatialExtent) (r : Coord) : (upd_right E r).bottom = E.bottom := by
  unfold upd_right; split_ifs <;> rfl

theorem upd_right_top (E : SpatialExtent) (r : Coord) : (upd_right E r).top = E.top := by
  unfold upd_right; split_ifs <;> rfl

theorem upd_bottom_bottom (E : SpatialExtent) (b : Coord) :
    (upd_bottom E b).bottom = min E.bottom b := by
  unfold upd_bottom
  split_ifs with h
  · exact (min_eq_right h.le).symm
  · exact (min_eq_left (not_lt.mp h)).symm

theorem upd_bottom_left (E : SpatialExtent) (b : Coord) : (upd_bottom E b).left = E.left := by
  unfold upd_bottom; split_ifs <;> rfl

theorem upd_bottom_right (E : SpatialExtent) (b : Coord) : (upd_bottom E b).right = E.right := by
  unfold upd_bottom; split_ifs <;> rfl

theorem upd_bottom_top (E : SpatialExtent) (b : Coord) : (upd_bottom E b).top = E.top := by
  unfold upd_bottom; split_ifs <;> rfl

theorem upd_top_top (E : SpatialExtent) (t : Coord) : (upd_top E t).top = max E.top t := by
  unfold upd_top
  split_ifs with h
  · exact (max_eq_right h.le).symm
  · exact (max_eq_left (not_lt.mp h)).symm

theorem upd_top_left (E : SpatialExtent) (t : Coord) : (upd_top E t).left = E.left := by
  unfold upd_top; split_ifs <;> rfl

theorem upd_top_bottom (E : SpatialExtent) (t : Coord) : (upd_top E t).bottom = E.bottom := by
  unfold upd_top; split_ifs <;> rfl

theorem upd_top_right (E : SpatialExtent) (t : Coord) : (upd_top E t).right = E.right := by
  unfold upd_top; split_ifs <;> rfl

theorem update_spatial_extent_left (E : SpatialExtent) (b : Bounds) :
    (update_spatial_extent E b).left = min E.left (q2c b.left) := by
  simp [update_spatial_extent, upd_top_left, upd_bottom_left, upd_right_left, upd_left_left]

theorem update_spatial_extent_bottom (E : SpatialExtent) (b : Bounds) :
    (update_spatial_extent E b).bottom = min E.bottom (q2c b.bottom) := by
  simp [update_spatial_extent, upd_top_bottom, upd_bottom_bottom, upd_right_bottom,
    upd_left_bottom]

theorem update_spatial_extent_right (E : SpatialExtent) (b : Bounds) :
    (update_spatial_extent E b).right = max E.right (q2c b.right) := by
  simp [update_spatial_extent, upd_top_right, upd_bottom_right, upd_right_right, upd_left_right]

theorem update_spatial_extent_top (E : SpatialExtent) (b : Bounds) :
    (update_spatial_extent E b).top = max E.top (q2c b.top) := by
  simp [update_spatial_extent, upd_top_top, upd_bottom_top, upd_right_top, upd_left_top]

/-- `F` extends `E`: the recorded spatial extent never shrinks from `E` to `F`. -/
def ext_le (E F : SpatialExtent) : Prop :=
  F.left ≤ E.left ∧ F.bottom ≤ E.bottom ∧ E.right ≤ F.right ∧ E.top ≤ F.top

/-- The bounds `b` are contained in the extent `E`. -/
def bounds_in (b : Bounds) (E : SpatialExtent) : Prop :=
  E.left ≤ q2c b.left ∧ E.bottom ≤ q2c b.bottom ∧ q2c b.right ≤ E.right ∧ q2c b.top ≤ E.top

theorem ext_le_refl (E : SpatialExtent) : ext_le E E :=
  ⟨le_refl _, le_refl _, le_refl _, le_refl _⟩

theorem ext_le_trans {E F G : SpatialExtent} (h1 : ext_le E F) (h2 : ext_le F G) : ext_le E G :=
  ⟨le_trans h2.1 h1.1, le_trans h2.2.1 h1.2.1,
   le_trans h1.2.2.1 h2.2.2.1, le_trans h1.2.2.2 h2.2.2.2⟩

theorem bounds_in_mono {b : Bounds} {E F : SpatialExtent} (hb : bounds_in b E)
    (hEF : ext_le E F) : bounds_in b F :=
  ⟨le_trans hEF.1 hb.1, le_trans hEF.2.1 hb.2.1,
   le_trans hb.2.2.1 hEF.2.2.1, le_trans hb.2.2.2 hEF.2.2.2⟩

theorem update_spatial_extent_extends (E : SpatialExtent) (b : Bounds) :
    ext_le E (update_spatial_extent E b) := by
  refine ⟨?_, ?_, ?_, ?_⟩
  · rw [update_spatial_extent_left]; exact min_le_left _ _
  · rw [update_spatial_extent_bottom]; exact min_le_left _ _
  · rw [update_spatial_extent_right]; exact le_max_left _ _
  · rw [update_spatial_extent_top]; exact le_max_left _ _

theorem update_spatial_extent_covers (E : SpatialExtent) (b : Bounds) :
    bounds_in b (update_spatial_extent E b) := by
  refine ⟨?_, ?_, ?_, ?_⟩
  · rw [update_spatial_extent_left]; exact min_le_right _ _
  · rw [update_spatial_extent_bottom]; exact min_le_right _ _
  · rw [update_spatial_extent_right]; exact le_max_right _ _
  · rw [update_spatial_extent_top]; exact le_max_right _ _

theorem update_spatial_extent_absorb {E : SpatialExtent} {b : Bounds} (h : bounds_in b E) :
    update_spatial_extent E b = E := by
  obtain ⟨h1, h2, h3, h4⟩ := h
  refine SpatialExtent.ext ?_ ?_ ?_ ?_
  · rw [update_spatial_extent_left]; exact min_eq_left h1
  · rw [update_spatial_extent_bottom]; exact min_eq_left h2
  · rw [update_spatial_extent_right]; exact max_eq_left h3
  · rw [update_spatial_extent_top]; exact max_eq_left h4

theorem foldl_update_spatial_extends (E : SpatialExtent) (L : List Bounds) :
    ext_le E (L.foldl update_spatial_extent E) := by
  induction L generalizing E with
  | nil => exact ext_le_refl E
  | cons b L ih =>
      exact ext_le_trans (update_spatial_extent_extends E b) (ih (update_spatial_extent E b))

theorem foldl_update_spatial_covers (E : SpatialExtent) (L : List Bounds) :
    ∀ b ∈ L, bounds_in b (L.foldl update_spatial_extent E) := by
  induction L generalizing E with
  | nil => intro b hb; cases hb
  | cons c L ih =>
      intro b hb
      rcases List.mem_cons.mp hb with h | h
      · subst h
        exact bounds_in_mono (update_spatial_extent_covers E b)
          (foldl_update_spatial_extends _ L)
      · exact ih (update_spatial_extent E c) b h

theorem foldl_update_spatial_absorb {F : SpatialExtent} {L : List Bounds}
    (h : ∀ b ∈ L, bounds_in b F) : L.foldl update_spatial_extent F = F := by
  induction L with
  | nil => rfl
  | cons b L ih =>
      have hb : bounds_in b F := h b (List.mem_cons_self b L)
      have : update_spatial_extent F b = F := update_spatial_extent_absorb hb
      simp only [List.foldl_cons, this]
      exact ih (fun c hc => h c (List.mem_cons_of_mem b hc))

/-- **C3.** `update_spatial_extent` is commutative and monotonic: merging
`B1` then `B2` into `E` equals merging `B2` then `B1`; the merged extent
contains `E`, `B1` and `B2`; and the result is the componentwise minimum of
the lefts/bottoms and maximum of the rights/tops. -/
theorem update_spatial_extent_comm_monotone (E : SpatialExtent) (B1 B2 : Bounds) :
    update_spatial_extent (update_spatial_extent E B1) B2 =
      update_spatial_extent (update_spatial_extent E B2) B1 ∧
    ext_le E (update_spatial_extent (update_spatial_extent E B1) B2) ∧
    bounds_in B1 (update_spatial_extent (update_spatial_extent E B1) B2) ∧
    bounds_in B2 (update_spatial_extent (update_spatial_extent E B1) B2) ∧
    (∀ F b, (update_spatial_extent F b).left = min F.left (q2c b.left) ∧
      (update_spatial_extent F b).bottom = min F.bottom (q2c b.bottom) ∧
      (update_spatial_extent F b).right = max F.right (q2c b.right) ∧
      (update_spatial_extent F b).top = max F.top (q2c b.top)) := by
  refine ⟨?_, ?_, ?_, ?_, ?_⟩
  · refine SpatialExtent.ext ?_ ?_ ?_ ?_
    · simp only [update_spatial_extent_left, min_assoc]
      rw [min_comm (q2c B1.left) (q2c B2.left)]
    · simp only [update_spatial_extent_bottom, min_assoc]
      rw [min_comm (q2c B1.bottom) (q2c B2.bottom)]
    · simp only [update_spatial_extent_right, max_assoc]
      rw [max_comm (q2c B1.right) (q2c B2.right)]
    · simp only [update_spatial_extent_top, max_assoc]
      rw [max_comm (q2c B1.top) (q2c B2.top)]
  · exact ext_le_trans (update_spatial_extent_extends E B1)
      (update_spatial_extent_extends _ B2)
  · exact bounds_in_mono (update_spatial_extent_covers E B1)
      (update_spatial_extent_extends _ B2)
  · exact update_spatial_extent_covers _ B2
  · intro F b
    exact ⟨update_spatial_extent_left F b, update_spatial_extent_bottom F b,
      update_spatial_extent_right F b, update_spatial_extent_top F b⟩

/-- The running temporal extent accumulator
(`{'earliest': .., 'latest': ..}`); `none` is Python `None`. -/
@[ext]
structure TemporalExtent where
  earliest : Option ℤ
  latest : Option ℤ
deriving DecidableEq

/-- A value reaching `update_temporal_extent` from
`item_dict['properties']['datetime']`: a native `datetime` object denoting
instant `t`, a normalized datetime string (`STAC_DATE_FORMAT`) denoting
instant `t`, or Python `None`. -/
inductive TimeVal where
  | dt (t : ℤ)
  | str (t : ℤ)
  | null
deriving DecidableEq

/-- The `try: datetime_obj = datetime.strptime(datetime_obj, STAC_DATE_FORMAT)
except: pass` normalization at the head of `update_temporal_extent`
(lines 159-164): a normalized string parses to its instant, a `datetime`
raises `TypeError` inside `strptime` and is kept, and `None` likewise stays
`None`. -/
def parse_time_val : TimeVal → Option ℤ
  | .dt t => some t
  | .str t => some t
  | .null => none

/-- Embeds `update_temporal_extent` (lines 158-169).  With a non-`None`
value the two compare-and-assign statements run; with `None` the code either
stores `None` over an unset bound or raises `TypeError` when comparing
`None` against a `datetime` bound. -/
def update_temporal_extent (extent : TemporalExtent) (v : TimeVal) :
    Except String TemporalExtent :=
  match parse_time_val v with
  | some d =>
      .ok { earliest :=
              match extent.earliest with
              | none => some d
              | some a => if d < a then some d else some a
            latest :=
              match extent.latest with
              | none => some d
              | some b => if d > b then some d else some b }
  | none =>
      match extent.earliest with
      | some _ => .error "TypeError: NoneType and datetime are not comparable"
      | none =>
          match extent.latest with
          | some _ => .error "TypeError: NoneType and datetime are not comparable"
          | none => .ok ⟨none, none⟩

/-- Folding a sequence of datetime values into the temporal accumulator, one
`update_temporal_extent` call per processed item. -/
def foldTemporal : TemporalExtent → List TimeVal → Except String TemporalExtent
  | extent, [] => .ok extent
  | extent, v :: vs =>
      match update_temporal_extent extent v with
      | .error e => .error e
      | .ok extent' => foldTemporal extent' vs

/-- The pure merge performed by `update_temporal_extent` on a non-`None`
instant (helper for stating its lemmas). -/
def tmerge (extent : TemporalExtent) (d : ℤ) : TemporalExtent :=
  { earliest :=
      match extent.earliest with
      | none => some d
      | some a => if d < a then some d else some a
    latest :=
      match extent.latest with
      | none => some d
      | some b => if d > b then some d else some b }

theorem update_temporal_extent_ok {v : TimeVal} {d : ℤ} (hv : parse_time_val v = some d)
    (extent : TemporalExtent) :
    update_temporal_extent extent v = .ok (tmerge extent d) := by
  unfold update_temporal_extent tmerge
  rw [hv]

/-- The instant `t` lies between the two recorded bounds. -/
def tcovers (extent : TemporalExtent) (t : ℤ) : Prop :=
  ∃ a b, extent.earliest = some a ∧ extent.latest = some b ∧ a ≤ t ∧ t ≤ b

/-- `F` extends `E`: recorded temporal bounds only move outward. -/
def text_le (E F : TemporalExtent) : Prop :=
  (∀ a, E.earliest = some a → ∃ a', F.earliest = some a' ∧ a' ≤ a) ∧
  (∀ b, E.latest = some b → ∃ b', F.latest = some b' ∧ b ≤ b')

theorem text_le_refl (E : TemporalExtent) : text_le E E :=
  ⟨fun a ha => ⟨a, ha, le_refl a⟩, fun b hb => ⟨b, hb, le_refl b⟩⟩

theorem text_le_trans {E F G : TemporalExtent} (h1 : text_le E F) (h2 : text_le F G) :
    text_le E G := by
  constructor
  · intro a ha
    obtain ⟨a', ha', hle⟩ := h1.1 a ha
    obtain ⟨a'', ha'', hle'⟩ := h2.1 a' ha'
    exact ⟨a'', ha'', le_trans hle' hle⟩
  · intro b hb
    obtain ⟨b', hb', hle⟩ := h1.2 b hb
    obtain ⟨b'', hb'', hle'⟩ := h2.2 b' hb'
    exact ⟨b'', hb'', le_trans hle hle'⟩

theorem tcovers_mono {E F : TemporalExtent} {t : ℤ} (h : tcovers E t) (hEF : text_le E F) :
    tcovers F t := by
  obtain ⟨a, b, ha, hb, hat, htb⟩ := h
  obtain ⟨a', ha', ha'le⟩ := hEF.1 a ha
  obtain ⟨b', hb', hb'le⟩ := hEF.2 b hb
  exact ⟨a', b', ha', hb', le_trans ha'le hat, le_trans htb hb'le⟩

theorem tmerge_earliest_le (E : TemporalExtent) (d : ℤ) :
    ∃ a, (tmerge E d).earliest = some a ∧ a ≤ d ∧
      ∀ a0, E.earliest = some a0 → a ≤ a0 := by
  cases h : E.earliest with
  | none =>
      refine ⟨d, by simp [tmerge, h], le_refl d, ?_⟩
      intro a0 ha0
      exact absurd ha0 (by simp)
  | some a =>
      refine ⟨if d < a then d else a, ?_, ?_, ?_⟩
      · simp only [tmerge, h]
        split_ifs <;> rfl
      · split_ifs with hlt
        · exact le_refl d
        · exact not_lt.mp hlt
      · intro a0 ha0
        injection ha0 with hh
        subst hh
        split_ifs with hlt
        · exact le_of_lt hlt
        · exact le_refl a

theorem tmerge_latest_ge (E : TemporalExtent) (d : ℤ) :
    ∃ b, (tmerge E d).latest = some b ∧ d ≤ b ∧
      ∀ b0, E.latest = some b0 → b0 ≤ b := by
  cases h : E.latest with
  | none =>
      refine ⟨d, by simp [tmerge, h], le_refl d, ?_⟩
      intro b0 hb0
      exact absurd hb0 (by simp)
  | some b =>
      refine ⟨if d > b then d else b, ?_, ?_, ?_⟩
      · simp only [tmerge, h]
        split_ifs <;> rfl
      · split_ifs with hlt
        · exact le_refl d
        · exact not_lt.mp hlt
      · intro b0 hb0
        injection hb0 with hh
        subst hh
        split_ifs with hlt
        · exact le_of_lt hlt
        · exact le_refl b

theorem tmerge_extends (E : TemporalExtent) (d : ℤ) : text_le E (tmerge E d) := by
  obtain ⟨a, hea, _, hmin⟩ := tmerge_earliest_le E d
  obtain ⟨b, hlb, _, hmax⟩ := tmerge_latest_ge E d
  exact ⟨fun a0 ha0 => ⟨a, hea, hmin a0 ha0⟩, fun b0 hb0 => ⟨b, hlb, hmax b0 hb0⟩⟩

theorem tmerge_covers (E : TemporalExtent) (d : ℤ) : tcovers (tmerge E d) d := by
  obtain ⟨a, hea, had, _⟩ := tmerge_earliest_le E d
  obtain ⟨b, hlb, hdb, _⟩ := tmerge_latest_ge E d
  exact ⟨a, b, hea, hlb, had, hdb⟩

theorem tmerge_absorb {E : TemporalExtent} {d : ℤ} (h : tcovers E d) : tmerge E d = E := by
  obtain ⟨a, b, ha, hb, had, hdb⟩ := h
  refine TemporalExtent.ext ?_ ?_
  · simp only [tmerge, ha]
    rw [if_neg (not_lt.mpr had)]
  · simp only [tmerge, hb]
    rw [if_neg (not_lt.mpr hdb)]

theorem foldTemporal_ok {ts : List TimeVal} (hts : ∀ v ∈ ts, v ≠ .null)
    (E : TemporalExtent) :
    ∃ T, foldTemporal E ts = .ok T ∧ text_le E T ∧
      (∀ v ∈ ts, ∀ d, parse_time_val v = some d → tcovers T d) := by
  induction ts generalizing E with
  | nil => exact ⟨E, rfl, text_le_refl E, fun v hv => absurd hv (List.not_mem_nil v)⟩
  | cons v vs ih =>
      have hv : v ≠ TimeVal.null := hts v (List.mem_cons_self v vs)
      obtain ⟨d, hd⟩ : ∃ d, parse_time_val v = some d := by
        cases v with
        | dt t => exact ⟨t, rfl⟩
        | str t => exact ⟨t, rfl⟩
        | null => exact absurd rfl hv
      obtain ⟨T, hT, hext, hcov⟩ := ih (fun w hw => hts w (List.mem_cons_of_mem v hw))
        (tmerge E d)
      refine ⟨T, ?_, text_le_trans (tmerge_extends E d) hext, ?_⟩
      · simp only [foldTemporal, update_temporal_extent_ok hd, hT]
      · intro w hw e he
        rcases List.mem_cons.mp hw with h | h
        · subst h
          rw [hd] at he
          injection he with he
          subst he
          exact tcovers_mono (tmerge_covers E d) hext
        · exact hcov w h e he

theorem foldTemporal_absorb {T : TemporalExtent} {ts : List TimeVal}
    (hts : ∀ v ∈ ts, v ≠ .null)
    (h : ∀ v ∈ ts, ∀ d, parse_time_val v = some d → tcovers T d) :
    foldTemporal T ts = .ok T := by
  induction ts with
  | nil => rfl
  | cons v vs ih =>
      have hv : v ≠ TimeVal.null := hts v (List.mem_cons_self v vs)
      obtain ⟨d, hd⟩ : ∃ d, parse_time_val v = some d := by
        cases v with
        | dt t => exact ⟨t, rfl⟩
        | str t => exact ⟨t, rfl⟩
        | null => exact absurd rfl hv
      have habs : tmerge T d = T := tmerge_absorb (h v (List.mem_cons_self v vs) d hd)
      simp only [foldTemporal, update_temporal_extent_ok hd, habs]
      exact ih (fun w hw => hts w (List.mem_cons_of_mem v hw))
        (fun w hw d0 hd0 => h w (List.mem_cons_of_mem v hw) d0 hd0)

/-- The persisted data of a sat-stac Collection (`collection.data`), as far
as the pipeline reads and writes it: its `id`, its link list, its item list,
and the persisted `extent` (spatial and temporal, `none` when the key is
missing or unparseable). -/
structure CollectionData where
  id : String
  links : List String
  items : List String
  spatial : Option SpatialExtent
  temporal : Option (ℤ × ℤ)
deriving DecidableEq

/-- Embeds `get_initial_spatial_extent` (lines 405-424): a persisted
`collection.data['extent']['spatial']` seeds the accumulator; a missing
entry (the blanket `except`) yields the empty extent. -/
def get_initial_spatial_extent (c : CollectionData) : SpatialExtent :=
  match c.spatial with
  | some e => e
  | none => emptySpatialExtent

/-- Embeds `get_initial_temporal_extent` (lines 427-442): a persisted
`collection.data['extent']['temporal']` pair (its two strings parsed by
`strptime`) seeds the accumulator; a missing or unparseable entry yields
`{'earliest': None, 'latest': None}`. -/
def get_initial_temporal_extent (c : CollectionData) : TemporalExtent :=
  match c.temporal with
  | some (e, l) => ⟨some e, some l⟩
  | none => ⟨none, none⟩

/-- **C2.** When the Collection pre-exists with a persisted extent, the
spatial and temporal accumulators are seeded from that extent; folding the
same bounds and timestamps over the already-folded extent leaves it
unchanged (re-runs yield an identical extent), and folding never shrinks the
seeded extent. -/
theorem extent_seeding_rerun (c : CollectionData) (sp : SpatialExtent) (tp : ℤ × ℤ)
    (hsp : c.spatial = some sp) (htp : c.temporal = some tp)
    (L : List Bounds) (ts : List TimeVal) (hts : ∀ v ∈ ts, v ≠ .null) :
    get_initial_spatial_extent c = sp ∧
    get_initial_temporal_extent c = ⟨some tp.1, some tp.2⟩ ∧
    (L.foldl update_spatial_extent (L.foldl update_spatial_extent sp) =
       L.foldl update_spatial_extent sp ∧
     ext_le sp (L.foldl update_spatial_extent sp)) ∧
    (∃ T, foldTemporal ⟨some tp.1, some tp.2⟩ ts = .ok T ∧
       foldTemporal T ts = .ok T ∧ text_le ⟨some tp.1, some tp.2⟩ T) := by
  refine ⟨?_, ?_, ⟨?_, ?_⟩, ?_⟩
  · simp [get_initial_spatial_extent, hsp]
  · cases tp
    simp [get_initial_temporal_extent, htp]
  · exact foldl_update_spatial_absorb (foldl_update_spatial_covers sp L)
  · exact foldl_update_spatial_extends sp L
  · obtain ⟨T, hT, hext, hcov⟩ := foldTemporal_ok hts ⟨some tp.1, some tp.2⟩
    exact ⟨T, hT, foldTemporal_absorb hts hcov, hext⟩

def c2_seed_spatial : SpatialExtent := ⟨q2c 0, q2c 0, q2c 1, q2c 1⟩

def c2_collection : CollectionData :=
  ⟨"nightlights", [], [], some c2_seed_spatial, some (0, 10)⟩

def c2_bounds : List Bounds := [⟨-1, 0, 2, 1⟩]

def c2_times : List TimeVal := [TimeVal.dt 5]

/-- Witness for C2 at a concrete seeded collection, one bounds merge and one
timestamp merge. -/
theorem extent_seeding_rerun_witness :
    (c2_collection.spatial = some c2_seed_spatial ∧
     c2_collection.temporal = some (0, 10) ∧
     (∀ v ∈ c2_times, v ≠ TimeVal.null)) ∧
    (get_initial_spatial_extent c2_collection = c2_seed_spatial ∧
     get_initial_temporal_extent c2_collection = ⟨some (0, 10).1, some (0, 10).2⟩ ∧
     (c2_bounds.foldl update_spatial_extent
         (c2_bounds.foldl update_spatial_extent c2_seed_spatial) =
        c2_bounds.foldl update_spatial_extent c2_seed_spatial ∧
      ext_le c2_seed_spatial (c2_bounds.foldl update_spatial_extent c2_seed_spatial)) ∧
     (∃ T, foldTemporal ⟨some (0, 10).1, some (0, 10).2⟩ c2_times = .ok T ∧
        foldTemporal T c2_times = .ok T ∧ text_le ⟨some (0, 10).1, some (0, 10).2⟩ T)) :=
  ⟨⟨rfl, rfl, by decide⟩,
   extent_seeding_rerun c2_collection c2_seed_spatial (0, 10) rfl rfl c2_bounds c2_times
     (by decide)⟩

/-- **C4.** Folding any sequence of (non-null) timestamps into the temporal
accumulator starting from `{None, None}` succeeds, and afterwards
`earliest ≤ t ≤ latest` holds for every observed instant `t`; the first
observed value is adopted for both bounds, whether it arrives as a native
`datetime` or as a normalized datetime string. -/
theorem temporal_extent_invariant (ts : List TimeVal) (hts : ∀ v ∈ ts, v ≠ .null) :
    (∃ T, foldTemporal ⟨none, none⟩ ts = .ok T ∧
      ∀ v ∈ ts, ∀ d, parse_time_val v = some d → tcovers T d) ∧
    (∀ t : ℤ, update_temporal_extent ⟨none, none⟩ (.dt t) = .ok ⟨some t, some t⟩ ∧
      update_temporal_extent ⟨none, none⟩ (.str t) = .ok ⟨some t, some t⟩) := by
  constructor
  · obtain ⟨T, hT, _, hcov⟩ := foldTemporal_ok hts ⟨none, none⟩
    exact ⟨T, hT, hcov⟩
  · intro t
    exact ⟨rfl, rfl⟩

def c4_times : List TimeVal := [TimeVal.str 5, TimeVal.dt 3, TimeVal.dt 7]

/-- Witness for C4 at a concrete mixed string/native timestamp sequence. -/
theorem temporal_extent_invariant_witness :
    (∀ v ∈ c4_times, v ≠ TimeVal.null) ∧
    ((∃ T, foldTemporal ⟨none, none⟩ c4_times = .ok T ∧
        ∀ v ∈ c4_times, ∀ d, parse_time_val v = some d → tcovers T d) ∧
     (∀ t : ℤ, update_temporal_extent ⟨none, none⟩ (.dt t) = .ok ⟨some t, some t⟩ ∧
        update_temporal_extent ⟨none, none⟩ (.str t) = .ok ⟨some t, some t⟩)) :=
  ⟨by decide, temporal_extent_invariant c4_times (by decide)⟩

/-- Python's `str.split` with a single-character separator, on char lists.
`split_on_char sep cs` never returns `[]` (Python's `split` always yields at
least one piece). -/
def split_on_char (sep : Char) (cs : List Char) : List (List Char) :=
  cs.foldr (fun c acc => match acc with
    | [] => [[c]]
    | g :: gs => if c = sep then [] :: g :: gs else (c :: g) :: gs) [[]]

/-- Python's `str.split` with a single-character separator, on strings. -/
def py_split (sep : Char) (s : String) : List String :=
  (split_on_char sep s.data).map (fun cs => String.mk cs)

/-- Python's `''.join(...)`. -/
def py_join (l : List String) : String := l.foldl (fun a b => a ++ b) ""

/-- Python's `str.endswith`. -/
def py_endswith (s suffix : String) : Bool := suffix.data.isSuffixOf s.data

/-- `os.path.basename` as used on the slash-separated keys and URLs of this
pipeline: the segment after the last `/`. -/
def basename (s : String) : String := (py_split '/' s).getLastD s

/-- `generic_image_id_function` (lines 23-29):
`os.path.basename(input_key).split('_')[0]`. -/
def generic_image_id_function (input_key : String) : String :=
  (py_split '_' (basename input_key)).headD ""

/-- `naip_image_id_function` (lines 32-39):
`input_key.split('/')[-2] + '/' + os.path.basename(input_key).split('.')[0]`,
for keys with at least two slash segments (on other keys Python raises
`IndexError`, which never arises for NAIP keys and is not modelled). -/
def naip_image_id_function (input_key : String) : String :=
  let parts := py_split '/' input_key
  parts.getD (parts.length - 2) "" ++ "/" ++ (py_split '.' (basename input_key)).headD ""

/-- The named ID-derivation rules of `config_to_function_map`
(lines 49-53). -/
inductive ImageIdRule where
  | generic
  | naip
deriving DecidableEq

def image_id_of_rule : ImageIdRule → String → String
  | .generic, k => generic_image_id_function k
  | .naip, k => naip_image_id_function k

/-- An abstract compiled regular expression together with the result of
`re.search` followed by `m.group('footprint')`: `search f = none` when the
pattern does not match `f`; `search f = some none` when it matches but the
pattern has no group named `footprint` (Python raises `IndexError`, caught
at line 459); `search f = some (some g)` when the `footprint` group captured
text `g`. -/
structure RegexModel where
  search : String → Option (Option String)

/-- The configuration dictionary `stac_config`, reduced to the keys this
development needs (after `validate_stac_config` defaulting). -/
structure StacConfig where
  bucket_name : String
  bucket_base_url : String
  output_bucket_name : String
  root_catalog_dir : String
  catalog_id : String
  catalog_description : String
  collection_id : String
  collection_metadata_spatial : Option SpatialExtent
  collection_metadata_temporal : Option (ℤ × ℤ)
  cog_suffix : String
  requester_pays : Bool
  allow_cog_conversion : Bool
  item_timestamp : TimeVal
  item_collection_prop : Option String
  image_id_rule : ImageIdRule
  fgdc_enabled : Bool
  filename_regex : Option RegexModel

/-- The derived COG filename of `convert_to_cog` (lines 333-334):
`parts = os.path.basename(input_url).split('.')`,
`cog_filename = ''.join(parts[:-1]) + '_COG.TIF'`. -/
def cog_filename (input_url : String) : String :=
  py_join ((py_split '.' (basename input_url)).dropLast) ++ "_COG.TIF"

/-- The derived S3 key of `convert_to_cog` (line 336):
`<collection-id>/<cog_filename>`. -/
def cog_s3_key (cfg : StacConfig) (input_url : String) : String :=
  cfg.collection_id ++ "/" ++ cog_filename input_url

/-- Embeds `convert_to_cog` (lines 332-366).  The source download (with its
`urlretrieve` fallback), the `rio cogeo create` invocation and the upload
are external I/O; the value returned to the caller is the derived URL
`s3://<OUTPUT_BUCKET_NAME>/<cog_s3_key>` (lines 337, 366). -/
def convert_to_cog (cfg : StacConfig) (input_url : String) : String :=
  "s3://" ++ cfg.output_bucket_name ++ "/" ++ cog_s3_key cfg input_url

/-- The item-dict fields built by `create_item` (lines 56-90) that the
claims concern; `geometry` (a polygon derived from `bbox`), the NAIP
quarter-quad hack and the fixed eo-metadata blob are omitted. -/
structure Item where
  id : String
  bbox : Bounds
  datetime : TimeVal
  collection_prop : String
  epsg : Option ℤ
  visual_href : String
  footprint_id : Option String
deriving DecidableEq

/-- Embeds `create_item` (lines 56-90). -/
def create_item (cfg : StacConfig) (image_id image_url : String) (bounds : Bounds)
    (epsg : Option ℤ) : Item :=
  { id := image_id
    bbox := bounds
    datetime := cfg.item_timestamp
    collection_prop := cfg.item_collection_prop.getD cfg.collection_id
    epsg := epsg
    visual_href := image_url
    footprint_id := none }

/-- Embeds `add_footprint_id_to_item` (lines 445-464): with no configured
`FILENAME_REGEX`, with no match, or with a match lacking a `footprint` group
(the caught `IndexError`) the item is returned unchanged; otherwise the
captured group is stored as `footprint_id`. -/
def add_footprint_id_to_item (cfg : StacConfig) (input_key : String) (item : Item) : Item :=
  match cfg.filename_regex with
  | none => item
  | some rgx =>
      match rgx.search (basename input_key) with
      | none => item
      | some none => item
      | some (some footprint) => { item with footprint_id := some footprint }

/-- Match the pattern `\d{7}_[a-z]{2}` at the head of `cs`. -/
def naip_match_at (cs : List Char) : Option String :=
  let digits := cs.take 7
  let rest := cs.drop 7
  if digits.length == 7 && digits.all Char.isDigit then
    match rest with
    | '_' :: c1 :: c2 :: _ =>
        if c1.isLower && c2.isLower then some (String.mk (digits ++ ['_', c1, c2]))
        else none
    | _ => none
  else none

/-- Leftmost search (the semantics of `re.search`). -/
def naip_search_from : List Char → Option String
  | [] => none
  | c :: rest =>
      match naip_match_at (c :: rest) with
      | some s => some s
      | none => naip_search_from rest

/-- Concrete model of the compiled NAIP footprint pattern
`(?P<footprint>\d{7}_[a-z]{2})`: leftmost occurrence of seven ASCII digits,
an underscore and two lowercase letters; the whole match is the `footprint`
group. -/
def naip_footprint_regex : RegexModel :=
  ⟨fun f => (naip_search_from f.data).map some⟩

/-- Per-asset results of the external collaborators: COG validity
(`validate_cog`), geographic bounds (`rasterio` + `transform_bounds`), the
EPSG code, and the acquisition date parsed from the FGDC sidecar when one
exists (`None` when the XML has no caldate node). -/
structure AssetEnv where
  is_valid_cog : Bool
  bounds_geo : Bounds
  epsg : Option ℤ
  fgdc_datetime : Option ℤ

/-- The source image URL for an asset key (lines 498-505): S3-native when
`REQUESTER_PAYS` is set, else the public bucket base URL plus the key. -/
def asset_image_url (cfg : StacConfig) (input_key : String) : String :=
  if cfg.requester_pays then "s3://" ++ cfg.bucket_name ++ "/" ++ input_key
  else cfg.bucket_base_url ++ input_key

/-- The conversion routing (lines 507-517): an invalid COG is converted only
when `ALLOW_COG_CONVERSION` is set, in which case the derived URL replaces
the original; otherwise only a warning is printed and the original URL is
kept. -/
def routed_image_url (cfg : StacConfig) (is_valid_cog : Bool) (image_url : String) : String :=
  if !is_valid_cog && cfg.allow_cog_conversion then convert_to_cog cfg image_url
  else image_url

/-- One iteration of the processing loop (lines 496-537), producing the item
dict for one asset key: URL choice, conversion routing, item construction,
footprint extraction, and the FGDC datetime override (the caldate parsed
from the sidecar XML, lines 197-198) when enrichment is configured. -/
def process_asset (cfg : StacConfig) (env : AssetEnv) (input_key : String) : Item :=
  let image_url := asset_image_url cfg input_key
  let image_url := routed_image_url cfg env.is_valid_cog image_url
  let image_id := image_id_of_rule cfg.image_id_rule input_key
  let item := create_item cfg image_id image_url env.bounds_geo env.epsg
  let item := add_footprint_id_to_item cfg input_key item
  if cfg.fgdc_enabled then
    match env.fgdc_datetime with
    | some d => { item with datetime := TimeVal.dt d }
    | none => item
  else item

/-- The post-loop datetime normalization (lines 543-547): a `datetime`
object becomes its normalized string via `strftime`; a string or `None`
raises `AttributeError`, which is caught and ignored. -/
def normalize_item_datetime : TimeVal → TimeVal
  | .dt t => .str t
  | v => v

def norm_item (it : Item) : Item :=
  { it with datetime := normalize_item_datetime it.datetime }

/-- The per-asset loop of `create_stac_catalog` (lines 496-547): items
accumulate in listing order while the two extent accumulators are folded;
the temporal update may raise. -/
def process_keys (cfg : StacConfig) (envf : String → AssetEnv) :
    List String → SpatialExtent → TemporalExtent → List Item →
    Except String (List Item × SpatialExtent × TemporalExtent)
  | [], se, te, items => .ok (items, se, te)
  | k :: ks, se, te, items =>
      let item := process_asset cfg (envf k) k
      let se' := update_spatial_extent se (envf k).bounds_geo
      match update_temporal_extent te item.datetime with
      | .error e => .error e
      | .ok te' => process_keys cfg envf ks se' te' (items ++ [norm_item item])

/-- The root catalog state of the sat-stac library: identity, description
and its list of links. -/
structure SatCatalog where
  id : String
  description : String
  links : List String
deriving DecidableEq

/-- Modelled from the spec: `satstac.Catalog.add_catalog` is not part of
this repository's sources (only `satstac/cli.py` is vendored).  Per the
spec's Catalog Assembler / data model ("a newly created Collection must be
linked exactly once") and the source comment at lines 596-597 ("otherwise
the collections initial list of links is cleared out"), linking appends one
child link for the collection to the root catalog and rebuilds the
collection's own link list afresh, clearing whatever it held. -/
def add_catalog (cat : SatCatalog) (coll : CollectionData) : SatCatalog × CollectionData :=
  ({ cat with links := cat.links ++ ["child:" ++ coll.id] },
   { coll with links := ["root:" ++ cat.id, "parent:" ++ cat.id] })

/-- The collection built from `COLLECTION_METADATA` when no persisted
collection could be opened (line 491): it starts with no links and no
items, and carries whatever extent the configured metadata supplies. -/
def new_collection (cfg : StacConfig) : CollectionData :=
  { id := cfg.collection_id
    links := []
    items := []
    spatial := cfg.collection_metadata_spatial
    temporal := cfg.collection_metadata_temporal }

/-- The root catalog built by `satstac.Catalog.create` when no persisted
catalog could be opened (lines 587-591); a fresh catalog carries no child
links. -/
def new_catalog (cfg : StacConfig) : SatCatalog :=
  { id := cfg.catalog_id, description := cfg.catalog_description, links := [] }

/-- The collection the run works on: the successfully opened persisted one,
or a fresh one from the configured metadata (lines 484-491). -/
def collection0 (cfg : StacConfig) (existing_collection : Option CollectionData) :
    CollectionData :=
  match existing_collection with
  | some c => c
  | none => new_collection cfg

/-- Persistence-relevant actions of the assembly tail, in execution
order. -/
inductive RunEvent where
  | saveCollectionLocal (path : String)
  | saveCatalogLocal (path : String)
  | linkCollection (collection_id : String)
deriving DecidableEq

/-- The assembly tail of `create_stac_catalog` (lines 570-601): save a
pre-existing collection into the local working tree (lines 570-573), open
or create the root catalog (lines 579-591), save it locally (line 593),
link a newly created collection (lines 595-598), then append every item to
the collection (lines 600-601). -/
def assemble_catalog (cfg : StacConfig) (temp_dir : String)
    (collection_already_exists : Bool) (collection : CollectionData)
    (existing_catalog : Option SatCatalog) (items : List Item) :
    CollectionData × SatCatalog × List RunEvent :=
  let events := if collection_already_exists then
      [RunEvent.saveCollectionLocal (temp_dir ++ "/" ++ cfg.root_catalog_dir ++ "/" ++
        cfg.collection_id ++ "/catalog.json")]
    else []
  let catalog := match existing_catalog with
    | some c => c
    | none => new_catalog cfg
  let events := events ++
    [RunEvent.saveCatalogLocal (temp_dir ++ "/" ++ cfg.root_catalog_dir ++ "/catalog.json")]
  let step := if collection_already_exists then (catalog, collection, events)
    else
      let lc := add_catalog catalog collection
      (lc.1, lc.2, events ++ [RunEvent.linkCollection collection.id])
  let collection := { step.2.1 with items := step.2.1.items ++ items.map (fun it => it.id) }
  (collection, step.1, step.2.2)

/-- The state a run produces before publication: the item dicts, the final
collection and catalog, the persistence events in order, and the
accumulated extent. -/
structure RunResult where
  items : List Item
  collection : CollectionData
  catalog : SatCatalog
  events : List RunEvent
  spatial : SpatialExtent
  temporal : ℤ × ℤ
deriving DecidableEq

/-- Embeds `create_stac_catalog` (lines 467-613) over explicit collaborator
results: `existing_collection` and `existing_catalog` are the outcomes of
the two open-or-create attempts (lines 485-491 and 579-591), `listing` is
the raw key listing, and `envf` supplies each asset's external metadata.
The run filters keys by `COG_SUFFIX` (line 478), seeds the extents from the
collection (lines 493-494), processes every key, formats the final temporal
extent with `strftime` (lines 561-564: `AttributeError` when a bound is
still `None`), and assembles the catalog tail.  Publication and linting
(lines 603-610) are external I/O past the returned state. -/
def create_stac_catalog (cfg : StacConfig) (temp_dir : String)
    (existing_collection : Option CollectionData) (existing_catalog : Option SatCatalog)
    (listing : List String) (envf : String → AssetEnv) : Except String RunResult :=
  let input_keys := listing.filter (fun k => py_endswith k cfg.cog_suffix)
  let collection := collection0 cfg existing_collection
  match process_keys cfg envf input_keys (get_initial_spatial_extent collection)
      (get_initial_temporal_extent collection) [] with
  | .error e => .error e
  | .ok (items, se, te) =>
      match te.earliest, te.latest with
      | some tE, some tL =>
          let asm := assemble_catalog cfg temp_dir existing_collection.isSome
            { collection with spatial := some se, temporal := some (tE, tL) }
            existing_catalog items
          .ok { items := items, collection := asm.1, catalog := asm.2.1,
                events := asm.2.2, spatial := se, temporal := (tE, tL) }
      | _, _ => .error "AttributeError: NoneType object has no attribute strftime"

theorem add_footprint_id_visual_href (cfg : StacConfig) (k : String) (it : Item) :
    (add_footprint_id_to_item cfg k it).visual_href = it.visual_href := by
  unfold add_footprint_id_to_item
  cases cfg.filename_regex with
  | none => rfl
  | some rgx =>
      dsimp only
      cases rgx.search (basename k) with
      | none => rfl
      | some g =>
          cases g with
          | none => rfl
          | some s => rfl

theorem add_footprint_id_datetime (cfg : StacConfig) (k : String) (it : Item) :
    (add_footprint_id_to_item cfg k it).datetime = it.datetime := by
  unfold add_footprint_id_to_item
  cases cfg.filename_regex with
  | none => rfl
  | some rgx =>
      dsimp only
      cases rgx.search (basename k) with
      | none => rfl
      | some g =>
          cases g with
          | none => rfl
          | some s => rfl

theorem process_asset_visual_href (cfg : StacConfig) (env : AssetEnv) (k : String) :
    (process_asset cfg env k).visual_href =
      routed_image_url cfg env.is_valid_cog (asset_image_url cfg k) := by
  simp only [process_asset]
  split_ifs with hf
  · cases env.fgdc_datetime with
    | some d => simp [add_footprint_id_visual_href, create_item]
    | none => simp [add_footprint_id_visual_href, create_item]
  · simp [add_footprint_id_visual_href, create_item]

theorem process_asset_datetime (cfg : StacConfig) (env : AssetEnv) (k : String) :
    (process_asset cfg env k).datetime =
      (if cfg.fgdc_enabled then
        match env.fgdc_datetime with
        | some d => TimeVal.dt d
        | none => cfg.item_timestamp
       else cfg.item_timestamp) := by
  simp only [process_asset]
  split_ifs with hf
  · cases env.fgdc_datetime with
    | some d => simp [add_footprint_id_datetime, create_item]
    | none => simp [add_footprint_id_datetime, create_item]
  · simp [add_footprint_id_datetime, create_item]

theorem process_keys_items (cfg : StacConfig) (envf : String → AssetEnv) :
    ∀ (ks : List String) (se : SpatialExtent) (te : TemporalExtent) (acc : List Item)
      (out : List Item × SpatialExtent × TemporalExtent),
      process_keys cfg envf ks se te acc = .ok out →
      out.1 = acc ++ ks.map (fun k => norm_item (process_asset cfg (envf k) k)) := by
  intro ks
  induction ks with
  | nil =>
      intro se te acc out h
      simp only [process_keys] at h
      injection h with h
      subst h
      simp
  | cons k ks ih =>
      intro se te acc out h
      simp only [process_keys] at h
      cases hu : update_temporal_extent te (process_asset cfg (envf k) k).datetime with
      | error e =>
          simp only [hu] at h
          exact Except.noConfusion h
      | ok te' =>
          simp only [hu] at h
          have hrec := ih _ _ _ _ h
          rw [hrec]
          simp

/-- With no persisted temporal bound and only `None` datetimes, the loop
succeeds and the temporal accumulator stays `{None, None}`. -/
theorem process_keys_null_temporal (cfg : StacConfig) (envf : String → AssetEnv) :
    ∀ (ks : List String) (se : SpatialExtent) (acc : List Item),
      (∀ k ∈ ks, (process_asset cfg (envf k) k).datetime = .null) →
      ∃ items se', process_keys cfg envf ks se ⟨none, none⟩ acc =
        .ok (items, se', (⟨none, none⟩ : TemporalExtent)) := by
  intro ks
  induction ks with
  | nil =>
      intro se acc _
      exact ⟨acc, se, rfl⟩
  | cons k ks ih =>
      intro se acc hnull
      have hk : (process_asset cfg (envf k) k).datetime = .null :=
        hnull k (List.mem_cons_self k ks)
      have hupd : update_temporal_extent ⟨none, none⟩ (process_asset cfg (envf k) k).datetime =
          .ok ⟨none, none⟩ := by
        rw [hk]
        rfl
      obtain ⟨items, se', hrec⟩ := ih (update_spatial_extent se (envf k).bounds_geo)
        (acc ++ [norm_item (process_asset cfg (envf k) k)])
        (fun k0 hk0 => hnull k0 (List.mem_cons_of_mem k hk0))
      refine ⟨items, se', ?_⟩
      simp only [process_keys, hupd]
      exact hrec

/-- Inversion of a successful `create_stac_catalog` run. -/
theorem create_stac_catalog_ok_inv (cfg : StacConfig) (temp_dir : String)
    (ec : Option CollectionData) (ecat : Option SatCatalog)
    (listing : List String) (envf : String → AssetEnv) (r : RunResult)
    (hr : create_stac_catalog cfg temp_dir ec ecat listing envf = .ok r) :
    ∃ items se te tE tL,
      process_keys cfg envf (listing.filter (fun k => py_endswith k cfg.cog_suffix))
        (get_initial_spatial_extent (collection0 cfg ec))
        (get_initial_temporal_extent (collection0 cfg ec)) [] = .ok (items, se, te) ∧
      te.earliest = some tE ∧ te.latest = some tL ∧
      r.items = items ∧
      r.collection = (assemble_catalog cfg temp_dir ec.isSome
        { collection0 cfg ec with spatial := some se, temporal := some (tE, tL) }
        ecat items).1 ∧
      r.catalog = (assemble_catalog cfg temp_dir ec.isSome
        { collection0 cfg ec with spatial := some se, temporal := some (tE, tL) }
        ecat items).2.1 ∧
      r.events = (assemble_catalog cfg temp_dir ec.isSome
        { collection0 cfg ec with spatial := some se, temporal := some (tE, tL) }
        ecat items).2.2 := by
  simp only [create_stac_catalog] at hr
  cases hp : process_keys cfg envf (listing.filter (fun k => py_endswith k cfg.cog_suffix))
      (get_initial_spatial_extent (collection0 cfg ec))
      (get_initial_temporal_extent (collection0 cfg ec)) [] with
  | error e =>
      simp only [hp] at hr
      exact Except.noConfusion hr
  | ok out =>
      obtain ⟨items, se, te⟩ := out
      simp only [hp] at hr
      cases hE : te.earliest with
      | none =>
          simp only [hE] at hr
          exact Except.noConfusion hr
      | some tE =>
          cases hL : te.latest with
          | none =>
              simp only [hE, hL] at hr
              exact Except.noConfusion hr
          | some tL =>
              simp only [hE, hL] at hr
              refine ⟨items, se, te, tE, tL, rfl, hE, hL, ?_, ?_, ?_, ?_⟩ <;>
                (injection hr with h; subst h; rfl)

/-- The root catalog's link list before the run: the opened catalog's links,
or none for a freshly created catalog. -/
def init_catalog_links (ecat : Option SatCatalog) : List String :=
  match ecat with
  | some c => c.links
  | none => []

theorem assemble_catalog_pre (cfg : StacConfig) (td : String) (coll : CollectionData)
    (ecat : Option SatCatalog) (items : List Item) :
    (assemble_catalog cfg td true coll ecat items).1.links = coll.links ∧
    (assemble_catalog cfg td true coll ecat items).2.1.links = init_catalog_links ecat ∧
    (assemble_catalog cfg td true coll ecat items).2.2 =
      [RunEvent.saveCollectionLocal (td ++ "/" ++ cfg.root_catalog_dir ++ "/" ++
        cfg.collection_id ++ "/catalog.json"),
       RunEvent.saveCatalogLocal (td ++ "/" ++ cfg.root_catalog_dir ++ "/catalog.json")] := by
  cases ecat <;> simp [assemble_catalog, new_catalog, init_catalog_links]

theorem assemble_catalog_new (cfg : StacConfig) (td : String) (coll : CollectionData)
    (ecat : Option SatCatalog) (items : List Item) :
    (assemble_catalog cfg td false coll ecat items).2.1.links =
      init_catalog_links ecat ++ ["child:" ++ coll.id] ∧
    (assemble_catalog cfg td false coll ecat items).2.2 =
      [RunEvent.saveCatalogLocal (td ++ "/" ++ cfg.root_catalog_dir ++ "/catalog.json"),
       RunEvent.linkCollection coll.id] := by
  cases ecat <;> simp [assemble_catalog, add_catalog, new_catalog, init_catalog_links]

/-- **C1.** (linking spec-modelled: sat-stac itself is not in the sources)
A Collection successfully opened from storage is never linked into the root
Catalog again — both the catalog's link list and the collection's own link
list survive the run untouched — while a newly created Collection is linked
into the root Catalog exactly once (exactly one child link is appended). -/
theorem collection_linked_exactly_once (cfg : StacConfig) (temp_dir : String)
    (ec : Option CollectionData) (ecat : Option SatCatalog) (listing : List String)
    (envf : String → AssetEnv) (r : RunResult)
    (hr : create_stac_catalog cfg temp_dir ec ecat listing envf = .ok r) :
    (∀ c, ec = some c →
      r.collection.links = c.links ∧
      r.catalog.links = init_catalog_links ecat) ∧
    (ec = none →
      r.catalog.links = init_catalog_links ecat ++ ["child:" ++ cfg.collection_id]) := by
  obtain ⟨items, se, te, tE, tL, hp, hE, hL, hitems, hcoll, hcat, hev⟩ :=
    create_stac_catalog_ok_inv cfg temp_dir ec ecat listing envf r hr
  constructor
  · intro c hc
    subst hc
    rw [hcoll, hcat]
    have h1 := assemble_catalog_pre cfg temp_dir
      { collection0 cfg (some c) with spatial := some se, temporal := some (tE, tL) }
      ecat items
    exact ⟨h1.1, h1.2.1⟩
  · intro hc
    subst hc
    rw [hcat]
    exact (assemble_catalog_new cfg temp_dir
      { collection0 cfg none with spatial := some se, temporal := some (tE, tL) }
      ecat items).1

def default_collection : CollectionData := ⟨"", [], [], none, none⟩

def default_catalog : SatCatalog := ⟨"", "", []⟩

def default_run : RunResult :=
  ⟨[], default_collection, default_catalog, [], emptySpatialExtent, (0, 0)⟩

def demo_cfg : StacConfig :=
  { bucket_name := "src-bucket"
    bucket_base_url := "https://s3.us-east-1.amazonaws.com/src-bucket/"
    output_bucket_name := "out-bucket"
    root_catalog_dir := "catalog"
    catalog_id := "cat"
    catalog_description := "demo catalog"
    collection_id := "coll"
    collection_metadata_spatial := none
    collection_metadata_temporal := none
    cog_suffix := ".tif"
    requester_pays := false
    allow_cog_conversion := false
    item_timestamp := TimeVal.dt 0
    item_collection_prop := none
    image_id_rule := ImageIdRule.generic
    fgdc_enabled := false
    filename_regex := none }

def demo_coll : CollectionData := ⟨"coll", ["self:orig"], [], none, some (0, 10)⟩

def demo_env : AssetEnv := ⟨false, ⟨0, 0, 1, 1⟩, some 4326, none⟩

def demo_envf : String → AssetEnv := fun _ => demo_env

def c1_result : RunResult :=
  (create_stac_catalog demo_cfg "/work" (some demo_coll) none [] demo_envf).toOption.getD
    default_run

/-- Witness for C1: a concrete successful run against a pre-existing
collection leaves both link lists untouched. -/
theorem collection_linked_exactly_once_witness :
    create_stac_catalog demo_cfg "/work" (some demo_coll) none [] demo_envf = .ok c1_result ∧
    c1_result.collection.links = demo_coll.links ∧
    c1_result.catalog.links = [] :=
  ⟨rfl,
   ((collection_linked_exactly_once demo_cfg "/work" (some demo_coll) none [] demo_envf
       c1_result rfl).1 demo_coll rfl).1,
   ((collection_linked_exactly_once demo_cfg "/work" (some demo_coll) none [] demo_envf
       c1_result rfl).1 demo_coll rfl).2⟩

/-- **C7 (amended).** The persistence order depends on whether the
Collection pre-existed: a pre-existing Collection is saved to the local
working tree before the root Catalog is saved; only a newly created
Collection sees the root Catalog saved first, being linked (and thereby
persisted) afterwards. -/
theorem persist_order (cfg : StacConfig) (temp_dir : String)
    (ec : Option CollectionData) (ecat : Option SatCatalog) (listing : List String)
    (envf : String → AssetEnv) (r : RunResult)
    (hr : create_stac_catalog cfg temp_dir ec ecat listing envf = .ok r) :
    (∀ c, ec = some c →
      r.events = [RunEvent.saveCollectionLocal (temp_dir ++ "/" ++ cfg.root_catalog_dir ++
          "/" ++ cfg.collection_id ++ "/catalog.json"),
        RunEvent.saveCatalogLocal (temp_dir ++ "/" ++ cfg.root_catalog_dir ++
          "/catalog.json")]) ∧
    (ec = none →
      r.events = [RunEvent.saveCatalogLocal (temp_dir ++ "/" ++ cfg.root_catalog_dir ++
          "/catalog.json"),
        RunEvent.linkCollection cfg.collection_id]) := by
  obtain ⟨items, se, te, tE, tL, hp, hE, hL, hitems, hcoll, hcat, hev⟩ :=
    create_stac_catalog_ok_inv cfg temp_dir ec ecat listing envf r hr
  constructor
  · intro c hc
    subst hc
    rw [hev]
    exact (assemble_catalog_pre cfg temp_dir
      { collection0 cfg (some c) with spatial := some se, temporal := some (tE, tL) }
      ecat items).2.2
  · intro hc
    subst hc
    rw [hev]
    exact (assemble_catalog_new cfg temp_dir
      { collection0 cfg none with spatial := some se, temporal := some (tE, tL) }
      ecat items).2

/-- Witness for the amended C7 at the concrete pre-existing-collection
run. -/
theorem persist_order_witness :
    create_stac_catalog demo_cfg "/work" (some demo_coll) none [] demo_envf = .ok c1_result ∧
    c1_result.events = [RunEvent.saveCollectionLocal "/work/catalog/coll/catalog.json",
      RunEvent.saveCatalogLocal "/work/catalog/catalog.json"] :=
  ⟨rfl,
   (persist_order demo_cfg "/work" (some demo_coll) none [] demo_envf c1_result rfl).1
     demo_coll rfl⟩

def is_save_catalog : RunEvent → Bool
  | .saveCatalogLocal _ => true
  | _ => false

def is_save_collection : RunEvent → Bool
  | .saveCollectionLocal _ => true
  | _ => false

/-- The ordering claimed by the spec, as a decidable check on a trace:
whenever both a root-catalog save and a collection save occur, the catalog
save comes first. -/
def catalog_saved_first (evs : List RunEvent) : Bool :=
  match evs.findIdx? is_save_catalog, evs.findIdx? is_save_collection with
  | some i, some j => decide (i < j)
  | _, _ => true

def c7_events : List RunEvent :=
  match create_stac_catalog demo_cfg "/work" (some demo_coll) none [] demo_envf with
  | .ok r => r.events
  | .error _ => []

/-- **C7 counterexample.** In a concrete run whose Collection pre-exists,
the Collection is saved to the local tree first and the root Catalog second,
so the root Catalog is not persisted before the Collection. -/
theorem persist_order_counterexample :
    c7_events = [RunEvent.saveCollectionLocal "/work/catalog/coll/catalog.json",
      RunEvent.saveCatalogLocal "/work/catalog/catalog.json"] ∧
    catalog_saved_first c7_events = false :=
  ⟨rfl, rfl⟩

/-- **C10.** With no persisted temporal extent on the collection the run
works on, and either an empty filtered key list or no processed item
carrying a non-null datetime, `create_stac_catalog` fails formatting the
temporal extent (`None` has no `strftime`) instead of assembling and
publishing a catalog. -/
theorem strftime_none_failure (cfg : StacConfig) (temp_dir : String)
    (ec : Option CollectionData) (ecat : Option SatCatalog) (listing : List String)
    (envf : String → AssetEnv)
    (h1 : (collection0 cfg ec).temporal = none)
    (h2 : listing.filter (fun k => py_endswith k cfg.cog_suffix) = [] ∨
      (cfg.item_timestamp = .null ∧
        (cfg.fgdc_enabled = false ∨ ∀ k, (envf k).fgdc_datetime = none))) :
    create_stac_catalog cfg temp_dir ec ecat listing envf =
      .error "AttributeError: NoneType object has no attribute strftime" := by
  have hte : get_initial_temporal_extent (collection0 cfg ec) = ⟨none, none⟩ := by
    simp [get_initial_temporal_extent, h1]
  simp only [create_stac_catalog, hte]
  rcases h2 with h2 | ⟨hit, hf⟩
  · rw [h2]
    rfl
  · have hnull : ∀ k ∈ listing.filter (fun k => py_endswith k cfg.cog_suffix),
        (process_asset cfg (envf k) k).datetime = .null := by
      intro k _
      rw [process_asset_datetime]
      rcases hf with hf | hf
      · simp [hf, hit]
      · split_ifs with hfe
        · rw [hf k]
          exact hit
        · exact hit
    obtain ⟨items, se', hpk⟩ := process_keys_null_temporal cfg envf
      (listing.filter (fun k => py_endswith k cfg.cog_suffix))
      (get_initial_spatial_extent (collection0 cfg ec)) [] hnull
    simp only [hpk]

def c10_listing : List String := ["readme.txt"]

/-- Witness for C10: a listing whose only key is filtered out, against a
fresh collection with no configured metadata extent, makes the run fail at
the temporal `strftime`. -/
theorem strftime_none_failure_witness :
    ((collection0 demo_cfg none).temporal = none ∧
     c10_listing.filter (fun k => py_endswith k demo_cfg.cog_suffix) = []) ∧
    create_stac_catalog demo_cfg "/work" none none c10_listing demo_envf =
      .error "AttributeError: NoneType object has no attribute strftime" :=
  ⟨⟨rfl, rfl⟩,
   strftime_none_failure demo_cfg "/work" none none c10_listing demo_envf rfl (Or.inl rfl)⟩

/-- **C5.** An asset failing COG validation is still cataloged: with
`ALLOW_COG_CONVERSION` false its item keeps the original URL as the asset
href (only a warning is printed, no conversion runs); with the flag true the
item's asset href is the derived `_COG` URL in the output bucket instead of
the original URL. -/
theorem conversion_routing (cfg : StacConfig) (temp_dir : String)
    (ec : Option CollectionData) (ecat : Option SatCatalog) (listing : List String)
    (envf : String → AssetEnv) (r : RunResult) (k : String)
    (hr : create_stac_catalog cfg temp_dir ec ecat listing envf = .ok r)
    (hk : k ∈ listing.filter (fun k0 => py_endswith k0 cfg.cog_suffix))
    (hv : (envf k).is_valid_cog = false) :
    (cfg.allow_cog_conversion = false →
      ∃ it ∈ r.items, it.visual_href = asset_image_url cfg k) ∧
    (cfg.allow_cog_conversion = true →
      ∃ it ∈ r.items, it.visual_href = convert_to_cog cfg (asset_image_url cfg k)) := by
  obtain ⟨items, se, te, tE, tL, hp, hE, hL, hitems, hcoll, hcat, hev⟩ :=
    create_stac_catalog_ok_inv cfg temp_dir ec ecat listing envf r hr
  have hmap := process_keys_items cfg envf _ _ _ _ _ hp
  simp only [List.nil_append] at hmap
  have hmem : norm_item (process_asset cfg (envf k) k) ∈ r.items := by
    rw [hitems, hmap]
    exact List.mem_map_of_mem _ hk
  have hhref : (norm_item (process_asset cfg (envf k) k)).visual_href =
      routed_image_url cfg false (asset_image_url cfg k) := by
    show (process_asset cfg (envf k) k).visual_href = _
    rw [process_asset_visual_href, hv]
  constructor
  · intro hallow
    refine ⟨norm_item (process_asset cfg (envf k) k), hmem, ?_⟩
    rw [hhref]
    simp [routed_image_url, hallow]
  · intro hallow
    refine ⟨norm_item (process_asset cfg (envf k) k), hmem, ?_⟩
    rw [hhref]
    simp [routed_image_url, hallow]

def c5_listing : List String := ["area/a.tif"]

def c5_result : RunResult :=
  (create_stac_catalog demo_cfg "/work" none none c5_listing demo_envf).toOption.getD
    default_run

/-- Witness for C5: a concrete run over one invalid-COG asset with
conversion disabled still catalogs it under its original URL. -/
theorem conversion_routing_witness :
    (create_stac_catalog demo_cfg "/work" none none c5_listing demo_envf = .ok c5_result ∧
     "area/a.tif" ∈ c5_listing.filter (fun k0 => py_endswith k0 demo_cfg.cog_suffix) ∧
     (demo_envf "area/a.tif").is_valid_cog = false) ∧
    ((demo_cfg.allow_cog_conversion = false →
       ∃ it ∈ c5_result.items, it.visual_href = asset_image_url demo_cfg "area/a.tif") ∧
     (demo_cfg.allow_cog_conversion = true →
       ∃ it ∈ c5_result.items,
         it.visual_href = convert_to_cog demo_cfg (asset_image_url demo_cfg "area/a.tif"))) :=
  ⟨⟨rfl, by decide, rfl⟩,
   conversion_routing demo_cfg "/work" none none c5_listing demo_envf c5_result "area/a.tif"
     rfl (by decide) rfl⟩

def c6_cfg : StacConfig :=
  { demo_cfg with
      collection_id := "c"
      allow_cog_conversion := true
      bucket_base_url := "https://b.example/" }

/-- **C6 counterexample.** `convert_to_cog` does not keep the original
extension: for input basename `foo.jp2` the derived key is `c/foo_COG.TIF`,
not `c/foo_COG.jp2` as claimed (`<basename>_COG.<ext>` with the original
file's extension). -/
theorem convert_to_cog_key_counterexample :
    cog_s3_key c6_cfg "https://b.example/naip/foo.jp2" = "c/foo_COG.TIF" ∧
    cog_s3_key c6_cfg "https://b.example/naip/foo.jp2" ≠ "c/foo_COG.jp2" :=
  ⟨rfl, by decide⟩

theorem split_on_char_nil (sep : Char) : split_on_char sep [] = [[]] := rfl

theorem split_on_char_cons (sep c : Char) (cs : List Char) :
    split_on_char sep (c :: cs) =
      match split_on_char sep cs with
      | [] => [[c]]
      | g :: gs => if c = sep then [] :: g :: gs else (c :: g) :: gs := rfl

theorem split_on_char_ne_nil (sep : Char) (cs : List Char) :
    split_on_char sep cs ≠ [] := by
  induction cs with
  | nil => simp [split_on_char]
  | cons c cs ih =>
      rw [split_on_char_cons]
      cases h : split_on_char sep cs with
      | nil => simp
      | cons g gs => split_ifs <;> simp

theorem split_on_char_of_no_sep (sep : Char) (cs : List Char) (h : ∀ c ∈ cs, c ≠ sep) :
    split_on_char sep cs = [cs] := by
  induction cs with
  | nil => rfl
  | cons c cs ih =>
      rw [split_on_char_cons, ih (fun x hx => h x (List.mem_cons_of_mem c hx))]
      simp [h c (List.mem_cons_self c cs)]

theorem split_on_char_append_sep (sep : Char) (cs ds : List Char)
    (h : ∀ c ∈ ds, c ≠ sep) :
    split_on_char sep (cs ++ sep :: ds) = split_on_char sep cs ++ [ds] := by
  induction cs with
  | nil =>
      simp only [List.nil_append]
      rw [split_on_char_cons, split_on_char_of_no_sep sep ds h]
      simp [split_on_char]
  | cons c cs ih =>
      simp only [List.cons_append]
      rw [split_on_char_cons, ih, split_on_char_cons]
      cases hsc : split_on_char sep cs with
      | nil => exact absurd hsc (split_on_char_ne_nil sep cs)
      | cons g gs =>
          simp only [List.cons_append]
          split_ifs <;> simp

theorem flatten_split_on_char (sep : Char) (cs : List Char) :
    (split_on_char sep cs).flatten = cs.filter (fun c => c ≠ sep) := by
  induction cs with
  | nil => rfl
  | cons c cs ih =>
      rw [split_on_char_cons]
      cases hsc : split_on_char sep cs with
      | nil => exact absurd hsc (split_on_char_ne_nil sep cs)
      | cons g gs =>
          rw [hsc] at ih
          simp only [List.flatten_cons] at ih
          by_cases hc : c = sep
          · subst hc
            simp [List.filter_cons, List.flatten_cons, ih]
          · simp [hc, List.filter_cons, List.flatten_cons, ih]

/-- A string with every occurrence of `.` removed. -/
def remove_dots (s : String) : String :=
  String.mk (s.data.filter (fun c => c ≠ '.'))

theorem py_join_data (ss : List String) :
    ∀ a : String, (ss.foldl (fun x y => x ++ y) a).data =
      a.data ++ (ss.map String.data).flatten := by
  induction ss with
  | nil =>
      intro a
      simp
  | cons s ss ih =>
      intro a
      simp only [List.foldl_cons, List.map_cons, List.flatten_cons]
      rw [ih (a ++ s)]
      simp

theorem py_join_py_split (sep : Char) (s : String) :
    py_join (py_split sep s) = String.mk (s.data.filter (fun c => c ≠ sep)) := by
  apply String.ext
  show (py_join (py_split sep s)).data = _
  unfold py_join py_split
  rw [py_join_data]
  simp only [List.map_map]
  have hmaps : ((split_on_char sep s.data).map (String.data ∘ fun cs => String.mk cs)) =
      split_on_char sep s.data := List.map_id _
  rw [hmaps, flatten_split_on_char]
  rfl

theorem py_split_append_dot (stem ext : String) (hext : ∀ c ∈ ext.data, c ≠ '.') :
    py_split '.' (stem ++ "." ++ ext) = py_split '.' stem ++ [ext] := by
  unfold py_split
  have hdata : (stem ++ "." ++ ext).data = stem.data ++ '.' :: ext.data := by
    show stem.data ++ ['.'] ++ ext.data = stem.data ++ '.' :: ext.data
    simp
  rw [hdata, split_on_char_append_sep '.' stem.data ext.data hext]
  simp

/-- The derived COG filename for a basename `stem.ext` (final extension
dot-free): the extension is dropped, any dots remaining inside the stem are
deleted by the `''.join`, and the fixed `_COG.TIF` suffix is appended. -/
theorem cog_filename_dotted (url stem ext : String)
    (hb : basename url = stem ++ "." ++ ext) (hext : ∀ c ∈ ext.data, c ≠ '.') :
    cog_filename url = remove_dots stem ++ "_COG.TIF" := by
  unfold cog_filename
  rw [hb, py_split_append_dot stem ext hext, List.dropLast_concat, py_join_py_split]
  rfl

/-- The derived COG filename for a dot-free basename: Python's
`''.join(parts[:-1])` is empty, so the file is named just `_COG.TIF`. -/
theorem cog_filename_dotless (url : String)
    (h : ∀ c ∈ (basename url).data, c ≠ '.') :
    cog_filename url = "_COG.TIF" := by
  unfold cog_filename
  have hsplit : py_split '.' (basename url) = [basename url] := by
    unfold py_split
    rw [split_on_char_of_no_sep '.' _ h]
    rfl
  rw [hsplit]
  simp [py_join]

/-- **C6 (amended).** For every input URL, `convert_to_cog` derives the
deterministic key `<collection-id>/<stem>_COG.TIF` in the output bucket,
where `<stem>` is the basename with its final dot-separated extension
removed and any remaining dots deleted (a dot-free basename leaves an empty
stem) — the original extension is replaced by the fixed uppercase `.TIF`
suffix — and when an invalid asset is routed to conversion, the returned
derived URL replaces the original URL as the item's asset href. -/
theorem convert_to_cog_amended (cfg : StacConfig) (url : String) :
    (∀ stem ext : String, basename url = stem ++ "." ++ ext →
      (∀ c ∈ ext.data, c ≠ '.') →
      convert_to_cog cfg url = "s3://" ++ cfg.output_bucket_name ++ "/" ++
        (cfg.collection_id ++ "/" ++ (remove_dots stem ++ "_COG.TIF"))) ∧
    ((∀ c ∈ (basename url).data, c ≠ '.') →
      convert_to_cog cfg url = "s3://" ++ cfg.output_bucket_name ++ "/" ++
        (cfg.collection_id ++ "/" ++ "_COG.TIF")) ∧
    (∀ env k, env.is_valid_cog = false → cfg.allow_cog_conversion = true →
      asset_image_url cfg k = url →
      (process_asset cfg env k).visual_href = convert_to_cog cfg url) := by
  refine ⟨?_, ?_, ?_⟩
  · intro stem ext hb hext
    rw [convert_to_cog, cog_s3_key, cog_filename_dotted url stem ext hb hext]
  · intro h
    rw [convert_to_cog, cog_s3_key, cog_filename_dotless url h]
  · intro env k hv ha hurl
    rw [process_asset_visual_href, hv]
    simp [routed_image_url, ha, hurl]

def c6_env : AssetEnv := ⟨false, ⟨0, 0, 1, 1⟩, none, none⟩

/-- Witness for the amended C6 on the multi-dot input `foo.tar.jp2`, with
conversion enabled and the asset URL actually routed through conversion:
the key keeps no original extension (`c/footar_COG.TIF`) and the item's
href is the derived URL. -/
theorem convert_to_cog_amended_witness :
    (basename "https://b.example/naip/foo.tar.jp2" = "foo.tar" ++ "." ++ "jp2" ∧
     (∀ c ∈ ("jp2" : String).data, c ≠ '.') ∧
     c6_env.is_valid_cog = false ∧
     c6_cfg.allow_cog_conversion = true ∧
     asset_image_url c6_cfg "naip/foo.tar.jp2" = "https://b.example/naip/foo.tar.jp2") ∧
    convert_to_cog c6_cfg "https://b.example/naip/foo.tar.jp2" =
      "s3://" ++ c6_cfg.output_bucket_name ++ "/" ++
        (c6_cfg.collection_id ++ "/" ++ (remove_dots "foo.tar" ++ "_COG.TIF")) ∧
    (process_asset c6_cfg c6_env "naip/foo.tar.jp2").visual_href =
      convert_to_cog c6_cfg "https://b.example/naip/foo.tar.jp2" :=
  ⟨⟨by decide, by decide, rfl, rfl, rfl⟩,
   (convert_to_cog_amended c6_cfg "https://b.example/naip/foo.tar.jp2").1
     "foo.tar" "jp2" (by decide) (by decide),
   (convert_to_cog_amended c6_cfg "https://b.example/naip/foo.tar.jp2").2.2
     c6_env "naip/foo.tar.jp2" rfl rfl rfl⟩

/-- **C9.** Footprint extraction never raises: with no configured regex, a
non-matching regex, or a match lacking a `footprint` group, the item is
simply returned without the field; the NAIP pattern
`(?P<footprint>\d{7}_[a-z]{2})` against the key
`.../m_4007746_ne_18_1_20170709.tif` captures `4007746_ne`. -/
theorem footprint_extraction (cfg : StacConfig) (input_key : String) (item : Item) :
    (cfg.filename_regex = none → add_footprint_id_to_item cfg input_key item = item) ∧
    (∀ rgx, cfg.filename_regex = some rgx → rgx.search (basename input_key) = none →
      add_footprint_id_to_item cfg input_key item = item) ∧
    (∀ rgx, cfg.filename_regex = some rgx → rgx.search (basename input_key) = some none →
      add_footprint_id_to_item cfg input_key item = item) ∧
    (∀ rgx fp, cfg.filename_regex = some rgx →
      rgx.search (basename input_key) = some (some fp) →
      add_footprint_id_to_item cfg input_key item =
        { item with footprint_id := some fp }) ∧
    naip_footprint_regex.search (basename "rgb/40077/m_4007746_ne_18_1_20170709.tif") =
      some (some "4007746_ne") := by
  refine ⟨?_, ?_, ?_, ?_, ?_⟩
  · intro h
    simp [add_footprint_id_to_item, h]
  · intro rgx h1 h2
    simp [add_footprint_id_to_item, h1, h2]
  · intro rgx h1 h2
    simp [add_footprint_id_to_item, h1, h2]
  · intro rgx fp h1 h2
    simp [add_footprint_id_to_item, h1, h2]
  · rfl

def c9_item : Item :=
  ⟨"40077/m_4007746_ne_18_1_20170709", ⟨0, 0, 1, 1⟩, TimeVal.null, "coll", none, "u", none⟩

def c9_cfg : StacConfig := { demo_cfg with filename_regex := some naip_footprint_regex }

/-- Witness for C9: with the NAIP regex configured, the NAIP key gains
`footprint_id = "4007746_ne"`. -/
theorem footprint_extraction_witness :
    c9_cfg.filename_regex = some naip_footprint_regex ∧
    add_footprint_id_to_item c9_cfg "rgb/40077/m_4007746_ne_18_1_20170709.tif" c9_item =
      { c9_item with footprint_id := some "4007746_ne" } :=
  ⟨rfl,
   (footprint_extraction c9_cfg "rgb/40077/m_4007746_ne_18_1_20170709.tif" c9_item).2.2.2.1
     naip_footprint_regex "4007746_ne" rfl
     (footprint_extraction c9_cfg "rgb/40077/m_4007746_ne_18_1_20170709.tif" c9_item).2.2.2.2⟩

/-- One `list_objects` response, as far as `get_s3_listing` inspects it: the
page's keys (`Contents`, in order), `IsTruncated`, and whether the response
carries a `NextMarker` field (checked by the assert at line 122). -/
structure S3Resp where
  contents : List String
  isTruncated : Bool
  hasNextMarker : Bool

/-- The `while response['IsTruncated']` loop of `get_s3_listing`
(lines 119-130): on a truncated response the assert requires no
`NextMarker`, the resumption marker is the last key of the page just
received (`response['Contents'][-1]`; an `IndexError` on an empty page),
the next request is issued with that marker, and its keys are appended in
page order.  `fuel` bounds the unbounded Python loop. -/
def listLoop (server : Option String → Except String S3Resp) :
    Nat → S3Resp → List String → Except String (List String)
  | fuel, resp, acc =>
    if resp.isTruncated then
      if resp.hasNextMarker then .error "AssertionError: NextMarker in response"
      else
        match resp.contents.getLast? with
        | none => .error "IndexError: list index out of range"
        | some marker =>
            match fuel with
            | 0 => .error "loop fuel exhausted"
            | fuel' + 1 =>
                match server (some marker) with
                | .error e => .error e
                | .ok resp' => listLoop server fuel' resp' (acc ++ resp'.contents)
    else .ok acc

/-- Embeds `get_s3_listing` (lines 109-132): the first request carries no
marker (lines 114-117), then the continuation loop runs. -/
def get_s3_listing (server : Option String → Except String S3Resp) (fuel : Nat) :
    Except String (List String) :=
  match server none with
  | .error e => .error e
  | .ok resp => listLoop server fuel resp resp.contents

/-- The well-formed response for page `i` of `pages`: its keys, truncated
exactly when further pages follow, and no `NextMarker` (this protocol does
not provide one). -/
def page_response (pages : List (List String)) (i : Nat) : S3Resp :=
  ⟨pages.getD i [], decide (i + 1 < pages.length), false⟩

theorem listLoop_pages (server : Option String → Except String S3Resp)
    (pages : List (List String)) (hne : ∀ p ∈ pages, p ≠ [])
    (hstep : ∀ i, i + 1 < pages.length →
      server (some ((pages.getD i []).getLastD "")) = .ok (page_response pages (i + 1))) :
    ∀ fuel i acc, i < pages.length → pages.length - (i + 1) ≤ fuel →
      listLoop server fuel (page_response pages i) acc =
        .ok (acc ++ (pages.drop (i + 1)).join) := by
  intro fuel
  induction fuel with
  | zero =>
      intro i acc hi hle
      have hlast : ¬ (i + 1 < pages.length) := by omega
      have hdrop : pages.drop (i + 1) = [] := List.drop_eq_nil_of_le (by omega)
      rw [listLoop]
      simp [page_response, hlast, hdrop]
  | succ fuel ih =>
      intro i acc hi hle
      by_cases hlast : i + 1 < pages.length
      · have hcne : pages.getD i [] ≠ [] := by
          have hmem : pages.getD i [] ∈ pages := by
            rw [List.getD_eq_getElem pages [] hi]
            exact List.getElem_mem hi
          exact hne _ hmem
        have hlastkey : (pages.getD i []).getLast? =
            some ((pages.getD i []).getLastD "") := by
          rw [List.getLastD_eq_getLast?]
          cases hgl : (pages.getD i []).getLast? with
          | none => exact absurd (List.getLast?_eq_none_iff.mp hgl) hcne
          | some x => rfl
        have hdrop : pages.drop (i + 1) =
            pages.getD (i + 1) [] :: pages.drop (i + 2) := by
          rw [List.getD_eq_getElem pages [] hlast]
          exact List.drop_eq_getElem_cons hlast
        have hih := ih (i + 1) (acc ++ pages.getD (i + 1) []) hlast (by omega)
        rw [listLoop]
        simp only [page_response, hlast, decide_eq_true_eq, if_true, hlastkey,
          hstep i hlast]
        simp only [page_response] at hih
        rw [hih, hdrop]
        simp
      · have hdrop : pages.drop (i + 1) = [] := List.drop_eq_nil_of_le (by omega)
        rw [listLoop]
        simp [page_response, hlast, hdrop]

/-- **C8.** For every well-formed multi-page listing — the first request
carries no marker, each later request is answered for the marker equal to
the last key of the previous page, pages are nonempty, and `IsTruncated` is
set exactly while pages remain — `get_s3_listing` returns every key of
every page exactly once, in page order (the concatenation of the pages). -/
theorem s3_listing_pagination (server : Option String → Except String S3Resp)
    (pages : List (List String)) (fuel : Nat)
    (hne : ∀ p ∈ pages, p ≠ [])
    (hfuel : pages.length ≤ fuel + 1)
    (h0 : server none = .ok (page_response pages 0))
    (hstep : ∀ i, i + 1 < pages.length →
      server (some ((pages.getD i []).getLastD "")) = .ok (page_response pages (i + 1)))
    (hpages : pages ≠ []) :
    get_s3_listing server fuel = .ok pages.join := by
  have hlen : 0 < pages.length := List.length_pos.mpr hpages
  unfold get_s3_listing
  rw [h0]
  show listLoop server fuel (page_response pages 0) (page_response pages 0).contents =
    .ok pages.join
  rw [listLoop_pages server pages hne hstep fuel 0 (page_response pages 0).contents hlen
    (by omega)]
  cases pages with
  | nil => exact absurd rfl hpages
  | cons p ps => simp [page_response]

def c8_pages : List (List String) := [["a", "b"], ["c", "d"], ["e", "f"]]

def c8_server : Option String → Except String S3Resp
  | none => .ok ⟨["a", "b"], true, false⟩
  | some "b" => .ok ⟨["c", "d"], true, false⟩
  | some "d" => .ok ⟨["e", "f"], false, false⟩
  | some _ => .error "unknown marker"

/-- Witness for C8: three pages of two keys each, `IsTruncated`
true/true/false, yield all six keys once, in page order. -/
theorem s3_listing_pagination_witness :
    ((∀ p ∈ c8_pages, p ≠ []) ∧
     c8_pages.length ≤ 2 + 1 ∧
     c8_server none = .ok (page_response c8_pages 0) ∧
     (∀ i, i + 1 < c8_pages.length →
       c8_server (some ((c8_pages.getD i []).getLastD "")) =
         .ok (page_response c8_pages (i + 1))) ∧
     c8_pages ≠ []) ∧
    get_s3_listing c8_server 2 = .ok ["a", "b", "c", "d", "e", "f"] := by
  have hstep : ∀ i, i + 1 < c8_pages.length →
      c8_server (some ((c8_pages.getD i []).getLastD "")) =
        .ok (page_response c8_pages (i + 1)) := by
    intro i hi
    have : i = 0 ∨ i = 1 := by
      simp only [c8_pages, List.length_cons, List.length_nil] at hi
      omega
    rcases this with h | h <;> subst h <;> rfl
  refine ⟨⟨by decide, by decide, rfl, hstep, by decide⟩, ?_⟩
  have := s3_listing_pagination c8_server c8_pages 2 (by decide) (by decide) rfl hstep
    (by decide)
  simpa [c8_pages] using this

end StacGen









